import Mathlib

/-!
Shallow embedding of `openapi_core/validation/request/validators.py`
(`RequestValidator`) and proofs about its validation pipeline.

The specification-document model, deserializers, caster, unmarshaller,
security providers, path matcher and media-type selector are external
collaborators of the validator; they are modelled as function fields of
the `Validator` structure, typed so that each can fail only with the
error kind its interface declares.
-/

set_option autoImplicit false

namespace OpenapiCore

/-- A generic value (raw request data, defaults, resolved values). -/
inductive Val where
  | null : Val
  | bool (b : Bool) : Val
  | int (n : Int) : Val
  | str (s : String) : Val
  | arr (l : List Val) : Val

/-- Python falsiness of a value (`not value`). -/
def Val.falsy : Val → Bool
  | .null => true
  | .bool b => !b
  | .int n => n == 0
  | .str s => s.isEmpty
  | .arr l => l.isEmpty

/-- Parameter location (`param['in']`). -/
inductive ParamLoc where
  | path | query | header | cookie
  deriving DecidableEq

/-- A schema node: the validator itself only reads its `default` key; the
`sid` tag lets collaborator functions distinguish schemas. -/
structure Schema where
  default : Option Val := none
  sid : String := ""

/-- A media-type node: holds an optional schema. -/
structure MediaType where
  schema : Option Schema := none

/-- A parameter declaration.  Modelled from the spec: the style flags
`aslist` and `explode` are computed by `get_aslist`/`get_explode`
(outside `src/`); the spec's data model treats them as declaration
flags, so they are fields here. -/
structure Param where
  name : String
  loc : ParamLoc
  required : Bool := false
  deprecated : Bool := false
  schema : Option Schema := none
  content : Option (List (String × MediaType)) := none
  aslist : Bool := false
  explode : Bool := false

/-- A request-body declaration. -/
structure RequestBody where
  required : Bool := false
  content : List (String × MediaType) := []

/-- A security-requirement alternative: scheme name to required scopes,
in declaration order (`security_requirement.keys()` order). -/
abbrev SecurityRequirement : Type := List (String × List String)

/-- A security-scheme declaration; the `stype` tag drives provider
selection by the security-provider factory. -/
structure SecurityScheme where
  stype : String := ""

/-- An operation node: parameters, optional request body, optional
security override. -/
structure Operation where
  parameters : List Param := []
  requestBody : Option RequestBody := none
  security : Option (List SecurityRequirement) := none

/-- A path-item node: the parameters shared by its operations. -/
structure PathItem where
  parameters : List Param := []

/-- The parts of the specification document the validator reads
directly: the spec-wide `security` key and `components#securitySchemes`. -/
structure Spec where
  security : Option (List SecurityRequirement) := none
  securitySchemes : List (String × SecurityScheme) := []

/-- First value stored under a key (`location[name]` on a multi-dict). -/
def lookupStr {α : Type} (l : List (String × α)) (k : String) : Option α :=
  (l.find? (fun kv => kv.1 == k)).map (fun kv => kv.2)

/-- Key-membership test (`name in location`). -/
def hasKey {α : Type} (l : List (String × α)) (k : String) : Bool :=
  l.any (fun kv => kv.1 == k)

/-- All values stored under a key, in order (`location.getall(name)`). -/
def getAllVals {α : Type} (l : List (String × α)) (k : String) : List α :=
  (l.filter (fun kv => kv.1 == k)).map (fun kv => kv.2)

/-- The request's per-location parameter value stores
(`request.parameters`). -/
structure RequestParametersStore where
  path : List (String × Val) := []
  query : List (String × Val) := []
  header : List (String × Val) := []
  cookie : List (String × Val) := []

/-- `request.parameters[param_location]`. -/
def RequestParametersStore.get (s : RequestParametersStore) : ParamLoc → List (String × Val)
  | .path => s.path
  | .query => s.query
  | .header => s.header
  | .cookie => s.cookie

/-- An incoming request: value stores and raw body payload. -/
structure Request where
  parameters : RequestParametersStore := {}
  body : Option Val := none

/-- Python truthiness of `request.body`. -/
def truthyBody : Option Val → Bool
  | none => false
  | some v => !v.falsy

/-- Errors of the validation pipeline.  Modelled from the spec: the
exception classes live outside `src/`; spec section 7 lists the error
kinds, which become the constructors here.  `uncaught` stands for an
exception outside the declared hierarchy escaping the validator
(for example `StopIteration` from an empty `content` mapping). -/
inductive Err where
  | pathError (msg : String)
  | invalidSecurity
  | missingParameter (name : String)
  | missingRequiredParameter (name : String)
  | deserializeError (msg : String)
  | castError (msg : String)
  | validateError (msg : String)
  | unmarshalError (msg : String)
  | missingRequiredRequestBody
  | mediaTypeFinderError (msg : String)
  | uncaught (msg : String)

/-- Failure kinds of the schema unmarshaller (`ValidateError`,
`UnmarshalError`). -/
inductive UnmErr where
  | validateErr (msg : String)
  | unmarshalErr (msg : String)

/-- Failure kinds of the raw body fetch. -/
inductive BodyFetchErr where
  | missingRequired
  | missing

/-- The validator: its specification document plus its external
collaborators.  Modelled from the spec (section 6): `BaseValidator`'s
`_find_path`, `_get_media_type`, `_deserialise_data`, `_cast`,
`_unmarshal` and the deserializer/security factories are outside
`src/`; they appear here as abstract functions whose result types
encode which error each interface may raise. -/
structure Validator where
  spec : Spec
  findPath : Request → Except String (PathItem × Operation × List (String × Val))
  deserialiseParameter : Param → Val → Except String Val
  deserialiseData : String → Val → Except String Val
  cast : Schema → Val → Except String Val
  unmarshal : Schema → Val → Except UnmErr Val
  securityProvider : SecurityScheme → Request → Except String Val
  findMediaType : List (String × MediaType) → Request → Except String (MediaType × String)

/-- Wrap an unmarshaller result into pipeline errors. -/
def unmWrap (r : Except UnmErr Val) : Except Err Val :=
  match r with
  | .error (.validateErr m) => .error (.validateError m)
  | .error (.unmarshalErr m) => .error (.unmarshalError m)
  | .ok v => .ok v

/-- `RequestValidator._get_parameter_value`. -/
def getParameterValue (p : Param) (req : Request) : Except Err Val :=
  let location := req.parameters.get p.loc
  if hasKey location p.name = false then
    if p.required then .error (.missingRequiredParameter p.name)
    else .error (.missingParameter p.name)
  else
    if p.aslist && p.explode then .ok (.arr (getAllVals location p.name))
    else .ok ((lookupStr location p.name).getD .null)

/-- `RequestValidator._get_parameter`.  The raw fetch may fail; a
`MissingParameter` falls back to the schema default (assigned directly
as the cast value), any other error propagates.  With a fetched value,
the simple scenario deserializes by parameter style and uses the
parameter's schema; the complex scenario takes the first entry of the
`content` mapping. -/
def getParameter (V : Validator) (req : Request) (p : Param) : Except Err Val :=
  match getParameterValue p req with
  | .error (.missingParameter n) =>
    match p.schema with
    | none => .error (.missingParameter n)
    | some schema =>
      match schema.default with
      | none => .error (.missingParameter n)
      | some d => unmWrap (V.unmarshal schema d)
  | .error e => .error e
  | .ok raw =>
    match p.content with
    | none =>
      match V.deserialiseParameter p raw with
      | .error m => .error (.deserializeError m)
      | .ok d =>
        match p.schema with
        | none => .error (.uncaught "schema key missing on parameter")
        | some schema =>
          match V.cast schema d with
          | .error m => .error (.castError m)
          | .ok c => unmWrap (V.unmarshal schema c)
    | some [] => .error (.uncaught "StopIteration: empty content mapping")
    | some ((mimetype, mt) :: _) =>
      match V.deserialiseData mimetype raw with
      | .error m => .error (.deserializeError m)
      | .ok d =>
        match mt.schema with
        | none => .error (.uncaught "schema key missing on media type")
        | some schema =>
          match V.cast schema d with
          | .error m => .error (.castError m)
          | .ok c => unmWrap (V.unmarshal schema c)

/-- Which parameter errors `_get_parameters` records (its second
`except` clause). -/
def caughtParamError : Err → Bool
  | .missingRequiredParameter _ => true
  | .deserializeError _ => true
  | .castError _ => true
  | .validateError _ => true
  | .unmarshalError _ => true
  | _ => false

/-- Loop body of `RequestValidator._get_parameters`: processes the
declarations in order, skipping any (name, location) already seen,
silently dropping `MissingParameter`, recording the listed error kinds
and propagating anything else. -/
def getParametersGo (V : Validator) (req : Request)
    (seen : List (String × ParamLoc)) :
    List Param → Except Err (List ((ParamLoc × String) × Val) × List Err)
  | [] => .ok ([], [])
  | p :: rest =>
    if (p.name, p.loc) ∈ seen then getParametersGo V req seen rest
    else
      match getParameter V req p with
      | .ok v =>
        (getParametersGo V req ((p.name, p.loc) :: seen) rest).map
          (fun r => (((p.loc, p.name), v) :: r.1, r.2))
      | .error (.missingParameter _) =>
        getParametersGo V req ((p.name, p.loc) :: seen) rest
      | .error e =>
        if caughtParamError e then
          (getParametersGo V req ((p.name, p.loc) :: seen) rest).map
            (fun r => (r.1, e :: r.2))
        else .error e

/-- `RequestValidator._get_parameters`. -/
def getParameters (V : Validator) (req : Request) (params : List Param) :
    Except Err (List ((ParamLoc × String) × Val) × List Err) :=
  getParametersGo V req [] params

/-- `RequestValidator._get_security_value`: a scheme name absent from
the security-schemes registry resolves to no value without failing;
otherwise the provider for the scheme is invoked. -/
def getSecurityValue (V : Validator) (schemeName : String) (req : Request) :
    Except String (Option Val) :=
  match lookupStr V.spec.securitySchemes schemeName with
  | none => .ok none
  | some scheme =>
    match V.securityProvider scheme req with
    | .error m => .error m
    | .ok v => .ok (some v)

/-- One alternative's dict comprehension: resolve every scheme name in
order; the first security error aborts the whole alternative. -/
def resolveRequirement (V : Validator) (req : Request) :
    SecurityRequirement → Except String (List (String × Option Val))
  | [] => .ok []
  | (schemeName, _) :: rest =>
    match getSecurityValue V schemeName req with
    | .error m => .error m
    | .ok v =>
      (resolveRequirement V req rest).map (fun tail => (schemeName, v) :: tail)

/-- The alternative loop of `RequestValidator._get_security`: first
alternative whose schemes all resolve wins; falling off the end raises
`InvalidSecurity`. -/
def getSecurityLoop (V : Validator) (req : Request) :
    List SecurityRequirement → Except Err (List (String × Option Val))
  | [] => .error .invalidSecurity
  | sr :: rest =>
    match resolveRequirement V req sr with
    | .ok m => .ok m
    | .error _ => getSecurityLoop V req rest

/-- The effective alternative list: the operation's `security` key, when
declared, replaces the spec-wide one. -/
def effectiveSecurity (spec : Spec) (op : Operation) :
    Option (List SecurityRequirement) :=
  match op.security with
  | some s => some s
  | none => spec.security

/-- `RequestValidator._get_security`: a falsy effective list (absent or
empty) yields an empty mapping before any alternative is tried. -/
def getSecurity (V : Validator) (req : Request) (op : Operation) :
    Except Err (List (String × Option Val)) :=
  match effectiveSecurity V.spec op with
  | none => .ok []
  | some [] => .ok []
  | some (sr :: rest) => getSecurityLoop V req (sr :: rest)

/-- `RequestValidator._get_body_value`: `if not request.body` — an
absent or falsy payload raises the missing-body exception matching the
`required` flag. -/
def getBodyValue (rb : RequestBody) (req : Request) : Except BodyFetchErr Val :=
  if truthyBody req.body = false then
    if rb.required then .error .missingRequired else .error .missing
  else .ok (req.body.getD .null)

/-- Modelled from the spec: `BaseValidator._cast` for the body (outside
`src/`) applies the caster to the media type's schema when one is
declared and returns the value unchanged otherwise (spec sections 4.4
and 6). -/
def castMediaType (V : Validator) (mt : MediaType) (v : Val) :
    Except String Val :=
  match mt.schema with
  | none => .ok v
  | some s => V.cast s v

/-- The body stages after the raw fetch: media-type selection,
deserialize, cast, then unmarshal if the media type declares a schema. -/
def getBodyContent (V : Validator) (req : Request) (rb : RequestBody)
    (raw : Val) : Option Val × List Err :=
  match V.findMediaType rb.content req with
  | .error m => (none, [.mediaTypeFinderError m])
  | .ok (mt, mimetype) =>
    match V.deserialiseData mimetype raw with
    | .error m => (none, [.deserializeError m])
    | .ok d =>
      match castMediaType V mt d with
      | .error m => (none, [.castError m])
      | .ok c =>
        match mt.schema with
        | none => (some c, [])
        | some schema =>
          match V.unmarshal schema c with
          | .error (.validateErr m) => (none, [.validateError m])
          | .error (.unmarshalErr m) => (none, [.unmarshalError m])
          | .ok b => (some b, [])

/-- `RequestValidator._get_body`. -/
def getBody (V : Validator) (req : Request) (op : Operation) :
    Option Val × List Err :=
  match op.requestBody with
  | none => (none, [])
  | some rb =>
    match getBodyValue rb req with
    | .error .missingRequired => (none, [.missingRequiredRequestBody])
    | .error .missing => (none, [])
    | .ok raw => getBodyContent V req rb raw

/-- Resolved request parameters, per location per name.  Modelled from
the spec: `RequestParameters` lives in the datatypes module outside
`src/`; every location defaults to empty. -/
structure RequestParameters where
  path : List (String × Val) := []
  query : List (String × Val) := []
  header : List (String × Val) := []
  cookie : List (String × Val) := []

/-- Distribute the flat resolved-parameter list into its per-location
mappings. -/
def toRequestParameters (l : List ((ParamLoc × String) × Val)) :
    RequestParameters :=
  { path := (l.filter (fun x => x.1.1 == ParamLoc.path)).map (fun x => (x.1.2, x.2))
    query := (l.filter (fun x => x.1.1 == ParamLoc.query)).map (fun x => (x.1.2, x.2))
    header := (l.filter (fun x => x.1.1 == ParamLoc.header)).map (fun x => (x.1.2, x.2))
    cookie := (l.filter (fun x => x.1.1 == ParamLoc.cookie)).map (fun x => (x.1.2, x.2)) }

/-- The validation result.  Modelled from the spec: the datatypes module
is outside `src/`; absent fields default to empty errors, absent body,
empty parameters and absent security (spec sections 3 and 7). -/
structure RequestValidationResult where
  errors : List Err := []
  body : Option Val := none
  parameters : RequestParameters := {}
  security : Option (List (String × Option Val)) := none

/-- Merge the matched path variables into the request's path-location
store when the caller left it empty (`request.parameters.path or
path_result.variables`). -/
def mergePathVariables (req : Request) (vars : List (String × Val)) : Request :=
  { req with parameters :=
      { req.parameters with path :=
          if req.parameters.path.isEmpty then vars else req.parameters.path } }

/-- `RequestValidator.validate`: two fatal gates (path resolution,
security) then the parameter and body pipelines.  The outer `Except`
is an exception escaping `validate` itself (only possible for an
uncaught error from the parameter pipeline). -/
def validate (V : Validator) (req : Request) :
    Except Err RequestValidationResult :=
  match V.findPath req with
  | .error m => .ok { errors := [.pathError m] }
  | .ok (pathItem, op, pathVars) =>
    match getSecurity V req op with
    | .error e => .ok { errors := [e] }
    | .ok security =>
      let req := mergePathVariables req pathVars
      match getParameters V req (op.parameters ++ pathItem.parameters) with
      | .error e => .error e
      | .ok (vals, paramErrors) =>
        let bodyRes := getBody V req op
        .ok { errors := paramErrors ++ bodyRes.2
              body := bodyRes.1
              parameters := toRequestParameters vals
              security := some security }

/-! ### Concrete fixtures shared by witnesses and counterexamples -/

/-- A baseline validator: empty specification, failing path resolution,
identity deserializers/caster/unmarshaller, denying security provider,
media-type selection by first entry. -/
def okValidator : Validator :=
  { spec := {}
    findPath := fun _ => .error "path not found"
    deserialiseParameter := fun _ v => .ok v
    deserialiseData := fun _ v => .ok v
    cast := fun _ v => .ok v
    unmarshal := fun _ v => .ok v
    securityProvider := fun _ _ => .error "denied"
    findMediaType := fun c _ =>
      match c with
      | [] => .error "no media type"
      | (m, mt) :: _ => .ok (mt, m) }

/-! ### Congruence helpers: which validator fields each stage reads -/

/-- `_get_security_value` does not read the spec-wide `security` key. -/
theorem getSecurityValue_spec_security (V : Validator)
    (s : Option (List SecurityRequirement)) (n : String) (req : Request) :
    getSecurityValue { V with spec := { V.spec with security := s } } n req =
      getSecurityValue V n req := rfl

/-- Resolving one alternative does not read the spec-wide `security`
key. -/
theorem resolveRequirement_spec_security (V : Validator)
    (s : Option (List SecurityRequirement)) (req : Request) :
    ∀ sr : SecurityRequirement,
      resolveRequirement { V with spec := { V.spec with security := s } } req sr =
        resolveRequirement V req sr
  | [] => rfl
  | (n, scopes) :: rest => by
    simp only [resolveRequirement, getSecurityValue_spec_security,
      resolveRequirement_spec_security V s req rest]

/-- The alternative loop does not read the spec-wide `security` key. -/
theorem getSecurityLoop_spec_security (V : Validator)
    (s : Option (List SecurityRequirement)) (req : Request) :
    ∀ l : List SecurityRequirement,
      getSecurityLoop { V with spec := { V.spec with security := s } } req l =
        getSecurityLoop V req l
  | [] => rfl
  | sr :: rest => by
    simp only [getSecurityLoop, resolveRequirement_spec_security]
    cases h : resolveRequirement V req sr with
    | ok m => simp [h]
    | error m => simp [h, getSecurityLoop_spec_security V s req rest]

/-! ### Claims -/

/-- **C1.** For every request for which path/operation resolution fails,
`validate` returns a result whose error list contains exactly that one
path error, and no parameters, body, or security are computed: the
result's body and security are absent and its parameters empty. -/
theorem claim1_pathError_fatal (V : Validator) (req : Request) (msg : String)
    (h : V.findPath req = .error msg) :
    validate V req = .ok { errors := [Err.pathError msg], body := none,
                           parameters := {}, security := none } := by
  simp [validate, h]

theorem claim1_pathError_fatal_witness :
    validate okValidator {} = .ok { errors := [Err.pathError "path not found"],
                                    body := none, parameters := {},
                                    security := none } :=
  claim1_pathError_fatal okValidator {} "path not found" rfl

/-- **C3.** An operation-level `security` key (even an empty list) fully
replaces the spec-wide list, and whenever the effective alternative
list is empty (absent or `[]`), security resolution returns an empty
mapping for every possible security provider — so no provider
invocation can influence the outcome. -/
theorem claim3_security_override_empty :
    (∀ (V : Validator) (req : Request) (op : Operation)
       (alts : List SecurityRequirement) (s : Option (List SecurityRequirement)),
       op.security = some alts →
       getSecurity { V with spec := { V.spec with security := s } } req op =
         getSecurity V req op)
    ∧ (∀ (V : Validator) (req : Request) (op : Operation)
         (f : SecurityScheme → Request → Except String Val),
         op.security = some [] →
         getSecurity { V with securityProvider := f } req op = .ok [])
    ∧ (∀ (V : Validator) (req : Request) (op : Operation)
         (f : SecurityScheme → Request → Except String Val),
         effectiveSecurity V.spec op = none ∨ effectiveSecurity V.spec op = some [] →
         getSecurity { V with securityProvider := f } req op = .ok []) := by
  refine ⟨?_, ?_, ?_⟩
  · intro V req op alts s h
    cases alts with
    | nil => simp [getSecurity, effectiveSecurity, h]
    | cons sr rest =>
      simp only [getSecurity, effectiveSecurity, h]
      exact getSecurityLoop_spec_security V s req (sr :: rest)
  · intro V req op f h
    simp [getSecurity, effectiveSecurity, h]
  · intro V req op f h
    have hspec : ({ V with securityProvider := f } : Validator).spec = V.spec := rfl
    rcases h with h | h <;> simp [getSecurity, hspec, h]

theorem claim3_security_override_empty_witness :
    getSecurity
      { okValidator with
          spec := { okValidator.spec with security := some [[("a", [])]] } }
      {} { security := some [] } = .ok []
    ∧ getSecurity okValidator {} {} = .ok [] :=
  ⟨claim3_security_override_empty.2.1
      { okValidator with
          spec := { okValidator.spec with security := some [[("a", [])]] } }
      {} { security := some [] } okValidator.securityProvider rfl,
   claim3_security_override_empty.2.2 okValidator {} {}
      okValidator.securityProvider (Or.inl rfl)⟩

/-- **C7.** A scheme name absent from the security-schemes registry
resolves as a no-op success: `_get_security_value` returns no value
without raising, and in any alternative containing that name the
alternative does not fail because of it — the mapping entry for the
name carries no value. -/
theorem claim7_unknown_scheme_noop (V : Validator) (req : Request)
    (schemeName : String)
    (h : lookupStr V.spec.securitySchemes schemeName = none) :
    getSecurityValue V schemeName req = .ok none
    ∧ ∀ (scopes : List String) (rest : SecurityRequirement),
        resolveRequirement V req ((schemeName, scopes) :: rest) =
          (resolveRequirement V req rest).map
            (fun m => (schemeName, (none : Option Val)) :: m) := by
  constructor
  · simp [getSecurityValue, h]
  · intro scopes rest
    simp [resolveRequirement, getSecurityValue, h]

theorem claim7_unknown_scheme_noop_witness :
    getSecurityValue okValidator "apiKey" {} = .ok none
    ∧ resolveRequirement okValidator {} [("apiKey", [])] =
        .ok [("apiKey", none)] := by
  have h := claim7_unknown_scheme_noop okValidator {} "apiKey" rfl
  exact ⟨h.1, by rw [h.2 [] []]; rfl⟩

/-- The first value stored under a key is the head of the ordered list
of all values stored under it. -/
theorem lookupStr_eq_head_getAll {α : Type} (k : String) :
    ∀ l : List (String × α), lookupStr l k = (getAllVals l k).head?
  | [] => rfl
  | kv :: t => by
    have ih := lookupStr_eq_head_getAll k t
    by_cases hk : (kv.1 == k) = true
    · simp [lookupStr, getAllVals, List.find?_cons_of_pos, List.filter_cons_of_pos, hk]
    · simp only [Bool.not_eq_true] at hk
      simp only [lookupStr, getAllVals] at ih ⊢
      rw [List.find?_cons_of_neg _ (by simp [hk]), List.filter_cons_of_neg (by simp [hk])]
      exact ih

/-- **C9.** For a parameter present in its location's store: with both
`aslist` and `explode` set, the raw value is the ordered sequence of
all repeated occurrences of the name; otherwise it is the single
(first) stored value. -/
theorem claim9_present_fetch (p : Param) (req : Request)
    (h : hasKey (req.parameters.get p.loc) p.name = true) :
    (p.aslist = true → p.explode = true →
      getParameterValue p req =
        .ok (.arr (((req.parameters.get p.loc).filter
          (fun kv => kv.1 == p.name)).map (fun kv => kv.2))))
    ∧ ((p.aslist && p.explode) = false →
      ∀ (v : Val) (vs : List Val),
        ((req.parameters.get p.loc).filter (fun kv => kv.1 == p.name)).map
          (fun kv => kv.2) = v :: vs →
        getParameterValue p req = .ok v) := by
  constructor
  · intro ha he
    simp [getParameterValue, h, ha, he, getAllVals]
  · intro hne v vs hl
    have hv : lookupStr (req.parameters.get p.loc) p.name = some v := by
      rw [lookupStr_eq_head_getAll]
      simp [getAllVals, hl]
    simp [getParameterValue, h, hne, hv]

def c9Request : Request :=
  { parameters :=
      { query := [("tags", .str "a"), ("tags", .str "b"), ("other", .str "z")] } }

def c9ParamList : Param :=
  { name := "tags", loc := .query, aslist := true, explode := true }

def c9ParamSingle : Param := { name := "tags", loc := .query }

theorem claim9_present_fetch_witness :
    getParameterValue c9ParamList c9Request = .ok (.arr [.str "a", .str "b"])
    ∧ getParameterValue c9ParamSingle c9Request = .ok (.str "a") := by
  have h1 := claim9_present_fetch c9ParamList c9Request rfl
  have h2 := claim9_present_fetch c9ParamSingle c9Request rfl
  exact ⟨by rw [h1.1 rfl rfl]; rfl, h2.2 rfl (.str "a") [.str "b"] rfl⟩

/-- **C10.** For a "content" parameter only the first entry of the
content mapping is used: the result is unchanged under any replacement
of the remaining entries (even when the first one fails), and with a
fetched raw value the first entry's media type selects the
deserializer while its schema drives casting and unmarshalling. -/
theorem claim10_content_first_only :
    (∀ (V : Validator) (req : Request) (p : Param) (mimetype : String)
       (mt : MediaType) (rest rest' : List (String × MediaType)),
       getParameter V req { p with content := some ((mimetype, mt) :: rest) } =
       getParameter V req { p with content := some ((mimetype, mt) :: rest') })
    ∧ (∀ (V : Validator) (req : Request) (p : Param) (mimetype : String)
         (mt : MediaType) (rest : List (String × MediaType))
         (schema : Schema) (raw : Val),
         mt.schema = some schema →
         getParameterValue p req = .ok raw →
         getParameter V req { p with content := some ((mimetype, mt) :: rest) } =
           (match V.deserialiseData mimetype raw with
            | .error m => .error (.deserializeError m)
            | .ok d =>
              match V.cast schema d with
              | .error m => .error (.castError m)
              | .ok c => unmWrap (V.unmarshal schema c))) := by
  constructor
  · intro V req p mimetype mt rest rest'
    rfl
  · intro V req p mimetype mt rest schema raw hs hraw
    have hv : getParameterValue
        { p with content := some ((mimetype, mt) :: rest) } req = .ok raw := hraw
    cases hd : V.deserialiseData mimetype raw with
    | error m => simp [getParameter, hv, hd]
    | ok d => simp [getParameter, hv, hd, hs]

def c10Param : Param :=
  { name := "filter", loc := .query
    content := some [("application/json", { schema := some { sid := "first" } }),
                     ("text/plain", { schema := some { sid := "second" } })] }

def c10Request : Request :=
  { parameters := { query := [("filter", .str "raw")] } }

def c10Validator : Validator :=
  { okValidator with
      deserialiseData := fun mimetype v =>
        if mimetype == "application/json" then .ok (.arr [v]) else .error "wrong deserializer" }

theorem claim10_content_first_only_witness :
    getParameter c10Validator c10Request c10Param = .ok (.arr [.str "raw"])
    ∧ getParameter c10Validator c10Request
        { c10Param with
            content := some [("application/json", { schema := some { sid := "first" } })] } =
      getParameter c10Validator c10Request c10Param := by
  have h2 := claim10_content_first_only.2 c10Validator c10Request
    { c10Param with content := none } "application/json"
    { schema := some { sid := "first" } }
    [("text/plain", { schema := some { sid := "second" } })]
    { sid := "first" } (.str "raw") rfl rfl
  have h1 := claim10_content_first_only.1 c10Validator c10Request
    { c10Param with content := none } "application/json"
    { schema := some { sid := "first" } }
    [] [("text/plain", { schema := some { sid := "second" } })]
  exact ⟨h2.trans rfl, h1⟩

/-- A successfully resolved alternative maps exactly its scheme names,
in order, each to its resolved value. -/
theorem resolveRequirement_ok_names (V : Validator) (req : Request) :
    ∀ (sr : SecurityRequirement) (m : List (String × Option Val)),
      resolveRequirement V req sr = .ok m →
      m.map (fun kv => kv.1) = sr.map (fun kv => kv.1)
      ∧ ∀ kv ∈ m, getSecurityValue V kv.1 req = .ok kv.2 := by
  intro sr
  induction sr with
  | nil =>
    intro m h
    simp only [resolveRequirement] at h
    cases h
    simp
  | cons kv rest ih =>
    intro m h
    obtain ⟨n, scopes⟩ := kv
    simp only [resolveRequirement] at h
    cases hv : getSecurityValue V n req with
    | error msg => simp [hv] at h
    | ok v =>
      simp only [hv] at h
      cases hr : resolveRequirement V req rest with
      | error msg => simp [hr, Except.map] at h
      | ok tail =>
        simp only [hr, Except.map] at h
        injection h with h2
        subst h2
        refine ⟨by simp [(ih tail hr).1], ?_⟩
        intro kv hkv
        rcases List.mem_cons.mp hkv with h3 | hkv'
        · subst h3; exact hv
        · exact (ih tail hr).2 kv hkv'

/-- When every alternative fails, the loop falls through to
`InvalidSecurity`. -/
theorem getSecurityLoop_all_fail (V : Validator) (req : Request) :
    ∀ alts : List SecurityRequirement,
      (∀ sr ∈ alts, ∃ msg, resolveRequirement V req sr = .error msg) →
      getSecurityLoop V req alts = .error .invalidSecurity := by
  intro alts
  induction alts with
  | nil => intro _; rfl
  | cons sr rest ih =>
    intro h
    obtain ⟨msg, hm⟩ := h sr (List.mem_cons_self sr rest)
    simp only [getSecurityLoop, hm]
    exact ih (fun s hs => h s (List.mem_cons_of_mem _ hs))

/-- **C2.** Security resolution tries the alternatives in declared
order: a successful alternative returns its scheme-name-to-value
mapping immediately (no later alternative is consulted), a failing one
is skipped; when every alternative has a scheme raising a security
error, `validate` returns a result with exactly one `InvalidSecurity`
error and no parameters, body or security. -/
theorem claim2_security_order_and_fatal :
    (∀ (V : Validator) (req : Request) (sr : SecurityRequirement)
       (m : List (String × Option Val)),
       resolveRequirement V req sr = .ok m →
       m.map (fun kv => kv.1) = sr.map (fun kv => kv.1)
       ∧ ∀ kv ∈ m, getSecurityValue V kv.1 req = .ok kv.2)
    ∧ (∀ (V : Validator) (req : Request) (sr : SecurityRequirement)
         (rest : List SecurityRequirement) (m : List (String × Option Val)),
         resolveRequirement V req sr = .ok m →
         getSecurityLoop V req (sr :: rest) = .ok m)
    ∧ (∀ (V : Validator) (req : Request) (sr : SecurityRequirement)
         (rest : List SecurityRequirement) (msg : String),
         resolveRequirement V req sr = .error msg →
         getSecurityLoop V req (sr :: rest) = getSecurityLoop V req rest)
    ∧ (∀ (V : Validator) (req : Request) (pathItem : PathItem) (op : Operation)
         (pathVars : List (String × Val)) (alts : List SecurityRequirement),
         V.findPath req = .ok (pathItem, op, pathVars) →
         effectiveSecurity V.spec op = some alts →
         alts ≠ [] →
         (∀ sr ∈ alts, ∃ msg, resolveRequirement V req sr = .error msg) →
         validate V req = .ok { errors := [Err.invalidSecurity], body := none,
                                parameters := {}, security := none }) := by
  refine ⟨fun V req sr m h => resolveRequirement_ok_names V req sr m h, ?_, ?_, ?_⟩
  · intro V req sr rest m h
    simp [getSecurityLoop, h]
  · intro V req sr rest msg h
    simp [getSecurityLoop, h]
  · intro V req pathItem op pathVars alts hfp heff hne hall
    have hloop := getSecurityLoop_all_fail V req alts hall
    have hsec : getSecurity V req op = .error .invalidSecurity := by
      cases alts with
      | nil => exact absurd rfl hne
      | cons sr rest => simp only [getSecurity, heff]; exact hloop
    simp [validate, hfp, hsec]

def c2Validator : Validator :=
  { okValidator with
      spec := { security := some [[("bad", [])], [("good", [])]]
                securitySchemes := [("bad", { stype := "deny" }),
                                    ("good", { stype := "allow" })] }
      securityProvider := fun s _ =>
        if s.stype == "allow" then .ok (.str "token") else .error "denied" }

def c2FailValidator : Validator :=
  { okValidator with
      findPath := fun _ => .ok ({}, {}, [])
      spec := { security := some [[("bad", [])]]
                securitySchemes := [("bad", { stype := "deny" })] } }

theorem claim2_security_order_and_fatal_witness :
    getSecurityLoop c2Validator {} [[("bad", [])], [("good", [])]] =
      .ok [("good", some (.str "token"))]
    ∧ validate c2FailValidator {} =
        .ok { errors := [Err.invalidSecurity], body := none,
              parameters := {}, security := none } := by
  have hskip := claim2_security_order_and_fatal.2.2.1 c2Validator {}
    [("bad", [])] [[("good", [])]] "denied" rfl
  have hok := claim2_security_order_and_fatal.2.1 c2Validator {}
    [("good", [])] [] [("good", some (.str "token"))] rfl
  have hfatal := claim2_security_order_and_fatal.2.2.2 c2FailValidator {}
    {} {} [] [[("bad", [])]] rfl rfl (by simp)
    (fun sr hsr => by
      simp only [List.mem_singleton] at hsr
      subst hsr
      exact ⟨"denied", rfl⟩)
  exact ⟨hskip.trans hok, hfatal⟩

/-- **C6 (amended).** For a parameter absent from its location's store:
if required, the single missing-required-parameter error is recorded
and the parameter is not processed further; if not required and a
schema with a default is declared, the default is used directly as the
already-cast value, so only the unmarshal step runs on it (deserialize
and cast are skipped); otherwise the parameter is skipped silently,
contributing neither a value nor an error. -/
theorem claim6_absent_parameter (V : Validator) (req : Request) (p : Param)
    (habs : hasKey (req.parameters.get p.loc) p.name = false) :
    (p.required = true →
      getParameter V req p = .error (.missingRequiredParameter p.name)
      ∧ ∀ (seen : List (String × ParamLoc)) (rest : List Param),
          (p.name, p.loc) ∉ seen →
          getParametersGo V req seen (p :: rest) =
            (getParametersGo V req ((p.name, p.loc) :: seen) rest).map
              (fun r => (r.1, Err.missingRequiredParameter p.name :: r.2)))
    ∧ (∀ (schema : Schema) (d : Val),
        p.required = false → p.schema = some schema → schema.default = some d →
        getParameter V req p = unmWrap (V.unmarshal schema d))
    ∧ (p.required = false →
        (p.schema = none ∨ ∃ schema, p.schema = some schema ∧ schema.default = none) →
        getParameter V req p = .error (.missingParameter p.name)
        ∧ ∀ (seen : List (String × ParamLoc)) (rest : List Param),
            (p.name, p.loc) ∉ seen →
            getParametersGo V req seen (p :: rest) =
              getParametersGo V req ((p.name, p.loc) :: seen) rest) := by
  refine ⟨?_, ?_, ?_⟩
  · intro hreq
    have hval : getParameterValue p req = .error (.missingRequiredParameter p.name) := by
      simp [getParameterValue, habs, hreq]
    have hgp : getParameter V req p = .error (.missingRequiredParameter p.name) := by
      simp [getParameter, hval]
    refine ⟨hgp, ?_⟩
    intro seen rest hseen
    simp only [getParametersGo]
    rw [if_neg hseen, hgp]
    simp [caughtParamError]
  · intro schema d hreq hs hd
    have hval : getParameterValue p req = .error (.missingParameter p.name) := by
      simp [getParameterValue, habs, hreq]
    simp [getParameter, hval, hs, hd]
  · intro hreq hnd
    have hval : getParameterValue p req = .error (.missingParameter p.name) := by
      simp [getParameterValue, habs, hreq]
    have hgp : getParameter V req p = .error (.missingParameter p.name) := by
      rcases hnd with hnone | ⟨schema, hs, hd⟩
      · simp [getParameter, hval, hnone]
      · simp [getParameter, hval, hs, hd]
    refine ⟨hgp, ?_⟩
    intro seen rest hseen
    simp only [getParametersGo]
    rw [if_neg hseen, hgp]

def c6Schema : Schema := { default := some (.str "d"), sid := "c6" }

def c6Param : Param := { name := "p", loc := .query, schema := some c6Schema }

def c6Validator : Validator :=
  { okValidator with cast := fun _ _ => .ok (.str "casted") }

/-- **C6, counterexample to the claim as stated.** With the parameter
absent and a schema default `"d"` declared, the code returns the
default untouched by the deserialize and cast steps, although the
claimed deserialize-cast route would have produced `"casted"`: the
default does not flow through deserialize and cast like a fetched
value. -/
theorem claim6_default_counterexample :
    getParameter c6Validator {} c6Param = .ok (.str "d")
    ∧ ((c6Validator.deserialiseParameter c6Param (.str "d")).bind
        (fun d => c6Validator.cast c6Schema d)) = .ok (.str "casted")
    ∧ Val.str "d" ≠ Val.str "casted" := by
  refine ⟨rfl, rfl, ?_⟩
  intro h
  injection h with h'
  exact absurd h' (by decide)

def c6ReqParam : Param := { name := "q", loc := .query, required := true }

theorem claim6_absent_parameter_witness :
    getParameter okValidator {} c6ReqParam =
      .error (.missingRequiredParameter "q")
    ∧ getParameter okValidator {} c6Param = .ok (.str "d")
    ∧ getParametersGo okValidator {} []
        [{ name := "r", loc := .query }] =
        getParametersGo okValidator {} [("r", ParamLoc.query)] [] := by
  have h1 := (claim6_absent_parameter okValidator {} c6ReqParam rfl).1 rfl
  have h2 := (claim6_absent_parameter okValidator {} c6Param rfl).2.1
    c6Schema (.str "d") rfl rfl rfl
  have h3 := (claim6_absent_parameter okValidator {}
    { name := "r", loc := .query } rfl).2.2 rfl (Or.inl rfl)
  exact ⟨h1.1, h2.trans rfl, h3.2 [] [] (by simp)⟩

/-- **C8 (amended).** The body fetch treats an absent payload and a
present-but-falsy (e.g. empty-string) payload identically: for a
required body either yields the single missing-required-body error
with body absent; for a non-required body either yields body absent
and zero errors; only a non-empty (truthy) payload proceeds to
media-type selection and the later body stages. -/
theorem claim8_empty_body_missing :
    (∀ (V : Validator) (req : Request) (op : Operation) (rb : RequestBody),
       op.requestBody = some rb → truthyBody req.body = false →
       rb.required = true →
       getBody V req op = (none, [Err.missingRequiredRequestBody]))
    ∧ (∀ (V : Validator) (req : Request) (op : Operation) (rb : RequestBody),
         op.requestBody = some rb → truthyBody req.body = false →
         rb.required = false →
         getBody V req op = (none, []))
    ∧ (∀ (V : Validator) (req : Request) (op : Operation) (rb : RequestBody)
         (v : Val),
         op.requestBody = some rb → req.body = some v → v.falsy = false →
         getBody V req op = getBodyContent V req rb v) := by
  refine ⟨?_, ?_, ?_⟩
  · intro V req op rb hop hb hr
    simp [getBody, hop, getBodyValue, hb, hr]
  · intro V req op rb hop hb hr
    simp [getBody, hop, getBodyValue, hb, hr]
  · intro V req op rb v hop hb hf
    simp [getBody, hop, getBodyValue, hb, truthyBody, hf]

def c8Operation : Operation :=
  { requestBody := some { required := true
                          content := [("application/json", { schema := none })] } }

def c8EmptyRequest : Request := { body := some (.str "") }

def c8FullRequest : Request := { body := some (.str "x") }

/-- **C8, counterexample to the claim as stated.** A present-but-empty
payload (`body = some ""`) with a required body declaration yields the
missing-required-body error instead of proceeding to media-type
selection, although the same pipeline on a non-empty payload
succeeds — present-but-empty is not distinguished from absent. -/
theorem claim8_empty_body_counterexample :
    c8EmptyRequest.body = some (.str "")
    ∧ getBody okValidator c8EmptyRequest c8Operation =
        (none, [Err.missingRequiredRequestBody])
    ∧ getBody okValidator c8FullRequest c8Operation =
        (some (.str "x"), []) := ⟨rfl, rfl, rfl⟩

theorem claim8_empty_body_missing_witness :
    getBody okValidator c8EmptyRequest c8Operation =
      (none, [Err.missingRequiredRequestBody])
    ∧ getBody okValidator c8FullRequest c8Operation =
        getBodyContent okValidator c8FullRequest
          { required := true, content := [("application/json", { schema := none })] } (.str "x") := by
  have h1 := claim8_empty_body_missing.1 okValidator c8EmptyRequest c8Operation
    { required := true, content := [("application/json", { schema := none })] }
    rfl rfl rfl
  have h3 := claim8_empty_body_missing.2.2 okValidator c8FullRequest c8Operation
    { required := true, content := [("application/json", { schema := none })] }
    (.str "x") rfl rfl rfl
  exact ⟨h1, h3⟩

/-! ### The parameter pipeline: shadowing, step behavior, totality -/

/-- Processing-step equation: a fresh declaration whose fetch/pipeline
fails with a recorded error kind appends exactly that one error,
contributes no value, and the remaining declarations are processed
unchanged. -/
theorem getParametersGo_caught_step (V : Validator) (req : Request)
    (seen : List (String × ParamLoc)) (p : Param) (rest : List Param) (e : Err)
    (hp : (p.name, p.loc) ∉ seen) (hg : getParameter V req p = .error e)
    (hc : caughtParamError e = true) :
    getParametersGo V req seen (p :: rest) =
      (getParametersGo V req ((p.name, p.loc) :: seen) rest).map
        (fun r => (r.1, e :: r.2)) := by
  simp only [getParametersGo]
  rw [if_neg hp, hg]
  cases e <;> simp [caughtParamError] at hc ⊢

/-- Processing-step equation: a fresh declaration resolving to a value
prepends that value and processes the rest unchanged. -/
theorem getParametersGo_ok_step (V : Validator) (req : Request)
    (seen : List (String × ParamLoc)) (p : Param) (rest : List Param) (v : Val)
    (hp : (p.name, p.loc) ∉ seen) (hg : getParameter V req p = .ok v) :
    getParametersGo V req seen (p :: rest) =
      (getParametersGo V req ((p.name, p.loc) :: seen) rest).map
        (fun r => (((p.loc, p.name), v) :: r.1, r.2)) := by
  simp only [getParametersGo]
  rw [if_neg hp, hg]

/-- Processing-step equation: a fresh declaration raising
`MissingParameter` is skipped silently. -/
theorem getParametersGo_missing_step (V : Validator) (req : Request)
    (seen : List (String × ParamLoc)) (p : Param) (rest : List Param) (n : String)
    (hp : (p.name, p.loc) ∉ seen)
    (hg : getParameter V req p = .error (.missingParameter n)) :
    getParametersGo V req seen (p :: rest) =
      getParametersGo V req ((p.name, p.loc) :: seen) rest := by
  simp only [getParametersGo]
  rw [if_neg hp, hg]

/-- A declaration whose (name, location) was already seen — or occurs
earlier in the processed list — contributes neither a value nor an
error: it can be deleted without changing the outcome. -/
theorem getParametersGo_skip (V : Validator) (req : Request) (q : Param)
    (l₂ : List Param) :
    ∀ (l₁ : List Param) (seen : List (String × ParamLoc)),
      ((q.name, q.loc) ∈ seen ∨ ∃ p ∈ l₁, p.name = q.name ∧ p.loc = q.loc) →
      getParametersGo V req seen (l₁ ++ q :: l₂) =
        getParametersGo V req seen (l₁ ++ l₂) := by
  intro l₁
  induction l₁ with
  | nil =>
    intro seen h
    rcases h with h | ⟨p, hp, _⟩
    · simp only [List.nil_append, getParametersGo]
      rw [if_pos h]
    · exact absurd hp (List.not_mem_nil p)
  | cons p l₁ ih =>
    intro seen h
    have hcase : ((q.name, q.loc) ∈ seen) ∨ ((q.name, q.loc) = (p.name, p.loc))
        ∨ (∃ r ∈ l₁, r.name = q.name ∧ r.loc = q.loc) := by
      rcases h with h | ⟨r, hr, hrq⟩
      · exact Or.inl h
      · rcases List.mem_cons.mp hr with h2 | h2
        · subst h2
          exact Or.inr (Or.inl (by rw [hrq.1, hrq.2]))
        · exact Or.inr (Or.inr ⟨r, h2, hrq⟩)
    simp only [List.cons_append, getParametersGo]
    by_cases hp : (p.name, p.loc) ∈ seen
    · rw [if_pos hp, if_pos hp]
      apply ih seen
      rcases hcase with h | h | h
      · exact Or.inl h
      · exact Or.inl (h ▸ hp)
      · exact Or.inr h
    · rw [if_neg hp, if_neg hp]
      have hrec := ih ((p.name, p.loc) :: seen) (by
        rcases hcase with h | h | h
        · exact Or.inl (List.mem_cons_of_mem _ h)
        · exact Or.inl (by rw [h]; exact List.mem_cons_self _ _)
        · exact Or.inr h)
      simp only [List.append_eq] at hrec ⊢
      rw [hrec]

/-- **C4.** When the operation and the path item both declare a
parameter with the same (name, location), only the operation's
declaration is processed: deleting the path item's declaration from
the chained list is invisible — it contributes neither a value nor an
error, for every validator (so also when the operation's declaration
fails or the parameter is missing). -/
theorem claim4_operation_shadows_pathitem (V : Validator) (req : Request)
    (opParams pre suf : List Param) (q : Param)
    (h : ∃ p ∈ opParams, p.name = q.name ∧ p.loc = q.loc) :
    getParameters V req (opParams ++ (pre ++ q :: suf)) =
      getParameters V req (opParams ++ (pre ++ suf)) := by
  have hs := getParametersGo_skip V req q suf (opParams ++ pre) []
    (by
      rcases h with ⟨p, hp, he⟩
      exact Or.inr ⟨p, List.mem_append_left pre hp, he⟩)
  simpa [getParameters, List.append_assoc] using hs

def c4OpParam : Param := { name := "id", loc := .query, required := true }

def c4PathParam : Param := { name := "id", loc := .query }

theorem claim4_operation_shadows_pathitem_witness :
    getParameters okValidator {} [c4OpParam, c4PathParam] =
      getParameters okValidator {} [c4OpParam] := by
  have h := claim4_operation_shadows_pathitem okValidator {} [c4OpParam] [] []
    c4PathParam ⟨c4OpParam, List.mem_singleton_self _, rfl, rfl⟩
  exact h

/-- Well-formedness of a declaration per the spec's data model: it
carries either a schema or a (necessarily inhabited) content mapping
from media type to schema. -/
def ParamWf (p : Param) : Prop :=
  match p.content with
  | none => p.schema.isSome = true
  | some l => ∃ first rest, l = first :: rest ∧ first.2.schema.isSome = true

/-- The raw fetch fails only with the two missing-parameter errors. -/
theorem getParameterValue_error (p : Param) (req : Request) (e : Err)
    (h : getParameterValue p req = .error e) :
    e = .missingParameter p.name ∨ e = .missingRequiredParameter p.name := by
  simp only [getParameterValue] at h
  split at h
  · split at h
    · injection h with h1
      exact Or.inr h1.symm
    · injection h with h1
      exact Or.inl h1.symm
  · split at h <;> simp at h

/-- Unwrapping an unmarshaller failure yields a recorded error kind. -/
theorem unmWrap_error (r : Except UnmErr Val) (e : Err) (h : unmWrap r = .error e) :
    caughtParamError e = true := by
  cases r with
  | ok v => simp [unmWrap] at h
  | error ue =>
    cases ue with
    | validateErr m => simp [unmWrap] at h; simp [← h, caughtParamError]
    | unmarshalErr m => simp [unmWrap] at h; simp [← h, caughtParamError]

/-- On a well-formed declaration, `_get_parameter` fails only with
`MissingParameter` or one of the recorded error kinds — never with an
exception outside the caught hierarchy. -/
theorem getParameter_error_kinds (V : Validator) (req : Request) (p : Param)
    (hwf : ParamWf p) (e : Err) (h : getParameter V req p = .error e) :
    caughtParamError e = true ∨ e = .missingParameter p.name := by
  simp only [getParameter] at h
  cases hv : getParameterValue p req with
  | error e' =>
    rcases getParameterValue_error p req e' hv with rfl | rfl
    · simp only [hv] at h
      cases hs : p.schema with
      | none =>
        simp only [hs] at h
        injection h with h1
        exact Or.inr h1.symm
      | some schema =>
        simp only [hs] at h
        cases hd : schema.default with
        | none =>
          simp only [hd] at h
          injection h with h1
          exact Or.inr h1.symm
        | some d =>
          simp only [hd] at h
          exact Or.inl (unmWrap_error _ _ h)
    · simp only [hv] at h
      injection h with h1
      exact Or.inl (by rw [← h1]; rfl)
  | ok raw =>
    simp only [hv] at h
    cases hc : p.content with
    | none =>
      simp only [hc] at h
      cases hdp : V.deserialiseParameter p raw with
      | error m =>
        simp only [hdp] at h
        injection h with h1
        exact Or.inl (by rw [← h1]; rfl)
      | ok d =>
        simp only [hdp] at h
        have hs : p.schema.isSome = true := by simpa [ParamWf, hc] using hwf
        cases hps : p.schema with
        | none => rw [hps] at hs; simp at hs
        | some schema =>
          simp only [hps] at h
          cases hcast : V.cast schema d with
          | error m =>
            simp only [hcast] at h
            injection h with h1
            exact Or.inl (by rw [← h1]; rfl)
          | ok c =>
            simp only [hcast] at h
            exact Or.inl (unmWrap_error _ _ h)
    | some l =>
      have hwf' : ∃ first rest, l = first :: rest ∧ first.2.schema.isSome = true := by
        simpa [ParamWf, hc] using hwf
      obtain ⟨⟨mimetype, mt⟩, rest, rfl, hms⟩ := hwf'
      simp only [hc] at h
      cases hdd : V.deserialiseData mimetype raw with
      | error m =>
        simp only [hdd] at h
        injection h with h1
        exact Or.inl (by rw [← h1]; rfl)
      | ok d =>
        simp only [hdd] at h
        cases hms' : mt.schema with
        | none => rw [hms'] at hms; simp at hms
        | some schema =>
          simp only [hms'] at h
          cases hcast : V.cast schema d with
          | error m =>
            simp only [hcast] at h
            injection h with h1
            exact Or.inl (by rw [← h1]; rfl)
          | ok c =>
            simp only [hcast] at h
            exact Or.inl (unmWrap_error _ _ h)

/-- On well-formed declarations the whole parameter pipeline never
raises: it always returns a resolved-values/errors pair. -/
theorem getParametersGo_wf_ok (V : Validator) (req : Request) :
    ∀ (params : List Param) (seen : List (String × ParamLoc)),
      (∀ p ∈ params, ParamWf p) →
      ∃ out, getParametersGo V req seen params = .ok out := by
  intro params
  induction params with
  | nil => intro seen _; exact ⟨([], []), rfl⟩
  | cons p rest ih =>
    intro seen hwf
    have hwp := hwf p (List.mem_cons_self p rest)
    have hrest : ∀ r ∈ rest, ParamWf r := fun r hr => hwf r (List.mem_cons_of_mem _ hr)
    by_cases hp : (p.name, p.loc) ∈ seen
    · obtain ⟨out, hout⟩ := ih seen hrest
      exact ⟨out, by simp only [getParametersGo]; rw [if_pos hp, hout]⟩
    · obtain ⟨out, hout⟩ := ih ((p.name, p.loc) :: seen) hrest
      cases hg : getParameter V req p with
      | ok v =>
        refine ⟨(((p.loc, p.name), v) :: out.1, out.2), ?_⟩
        rw [getParametersGo_ok_step V req seen p rest v hp hg, hout]
        rfl
      | error e =>
        rcases getParameter_error_kinds V req p hwp e hg with hcaught | rfl
        · refine ⟨(out.1, e :: out.2), ?_⟩
          rw [getParametersGo_caught_step V req seen p rest e hp hg hcaught, hout]
          rfl
        · refine ⟨out, ?_⟩
          rw [getParametersGo_missing_step V req seen p rest p.name hp hg, hout]

/-- **C5.** The parameter pipeline is never fatal: on every sequence of
declarations of the data model, `_get_parameters` returns a
values/errors pair (it never raises), and any recorded failure of one
parameter is appended as exactly one entry to the error list, that
parameter contributes no value, and the remaining declarations are
processed unchanged. -/
theorem claim5_parameters_never_fatal :
    (∀ (V : Validator) (req : Request) (params : List Param),
       (∀ p ∈ params, ParamWf p) →
       ∃ out, getParameters V req params = .ok out)
    ∧ (∀ (V : Validator) (req : Request) (seen : List (String × ParamLoc))
         (p : Param) (rest : List Param) (e : Err),
         (p.name, p.loc) ∉ seen →
         getParameter V req p = .error e → caughtParamError e = true →
         getParametersGo V req seen (p :: rest) =
           (getParametersGo V req ((p.name, p.loc) :: seen) rest).map
             (fun r => (r.1, e :: r.2))) :=
  ⟨fun V req params h => getParametersGo_wf_ok V req params [] h,
   fun V req seen p rest e hp hg hc =>
     getParametersGo_caught_step V req seen p rest e hp hg hc⟩

def c5Validator : Validator :=
  { okValidator with cast := fun _ _ => .error "bad cast" }

def c5Param : Param := { name := "n", loc := .query, schema := some { sid := "c5" } }

def c5Request : Request :=
  { parameters := { query := [("n", .str "1"), ("m", .str "2")] } }

theorem claim5_parameters_never_fatal_witness :
    (∃ out, getParameters c5Validator c5Request [c5Param] = .ok out)
    ∧ getParametersGo c5Validator c5Request [] [c5Param] =
        (getParametersGo c5Validator c5Request [("n", ParamLoc.query)] []).map
          (fun r => (r.1, Err.castError "bad cast" :: r.2)) := by
  refine ⟨claim5_parameters_never_fatal.1 c5Validator c5Request [c5Param] ?_,
    claim5_parameters_never_fatal.2 c5Validator c5Request [] c5Param []
      (Err.castError "bad cast") (by simp) rfl rfl⟩
  intro p hp
  simp only [List.mem_singleton] at hp
  subst hp
  exact rfl

end OpenapiCore
